import Mathlib

/-!
# Verification of `statdir.go`

A shallow embedding of the `statdir` package: an asynchronous stats collector
that persists named 64-bit counters as files in a directory.  The embedding
models:

* the `Collector` struct (`path`, `startedAt`, `finishedAt`, `counters`);
* `NewCollector`, `AddCounter`, `Path`, `StartedAt`, `FinishedAt`, `ValueOf`;
* the `Collect` loop: directory creation, the upper-cased file-name map `fC`,
  the `STARTED`/`FINISHED` marker writes (the latter in a `defer`, so it runs
  on panic as well), and the select loop processing `op` requests.

Go's `map[string]*int64` is modelled as an association list
`List (String × Int)`; a missing key corresponds to the `nil` pointer that
`atomic.AddInt64`/`atomic.StoreInt64` would dereference, so the loop step is
`Option`-valued with `none` modelling that panic.  Machine `int64` arithmetic
is `Int` reduced by `wrap64`.  `time.Now` results enter as explicit `Nat`
parameters (seconds since the Unix epoch, rendered in UTC by `rfc3339`; Go
renders in the local zone, which only changes the offset suffix).  File-system
writes are recorded in a newest-first trace of `(path, content)` pairs;
`os.MkdirAll`'s outcome is an explicit `Option String` error parameter, and
`ioutil.WriteFile` errors, which the source ignores, are not modelled.
-/

namespace Statdir

/-- Association-list lookup: the value of the first pair whose key is `k`.
Models Go map indexing `m[k]` (comma-ok form: `none` means absent). -/
def findVal {α : Type} (l : List (String × α)) (k : String) : Option α :=
  match l with
  | [] => none
  | p :: rest => if p.1 = k then some p.2 else findVal rest k

/-- Store `v` at every pair whose key is `k` (keys produced by `AddCounter`
are unique, so this is the map update / `atomic.StoreInt64` through the
stored pointer). -/
def storeVal (l : List (String × Int)) (k : String) (v : Int) : List (String × Int) :=
  l.map (fun p => if p.1 = k then (p.1, v) else p)

/-- Reduce an integer to the `int64` range `[-2^63, 2^63)`, as Go's
two's-complement arithmetic does on overflow. -/
def wrap64 (x : Int) : Int :=
  (x + 2 ^ 63) % 2 ^ 64 - 2 ^ 63

/-- Models Go `strings.ToUpper` on ASCII strings (the package never feeds it
anything else). -/
def goToUpper (s : String) : String :=
  String.mk (s.data.map Char.toUpper)

/-- Split a character list at every `/`.  Helper for the lexical processing
done by Go `path.Clean`. -/
def splitSlash : List Char → List (List Char)
  | [] => [[]]
  | c :: rest =>
    if c = '/' then [] :: splitSlash rest
    else
      match splitSlash rest with
      | [] => [[c]]
      | h :: t => (c :: h) :: t

/-- Process path components against a stack (held in reverse order): drop
empty and `.` components, let `..` pop a non-`..` entry (or vanish at the
root), push everything else.  This is the component-level description of Go
`path.Clean`'s lazybuf loop. -/
def cleanComps (rooted : Bool) : List (List Char) → List (List Char) → List (List Char)
  | stack, [] => stack
  | stack, c :: rest =>
    if c = [] ∨ c = ['.'] then cleanComps rooted stack rest
    else if c = ['.', '.'] then
      match stack with
      | [] => if rooted then cleanComps rooted [] rest else cleanComps rooted [['.', '.']] rest
      | top :: s2 =>
        if top = ['.', '.'] then cleanComps rooted (['.', '.'] :: top :: s2) rest
        else cleanComps rooted s2 rest
    else cleanComps rooted (c :: stack) rest

/-- Join path components back together with `/` separators. -/
def joinComps : List (List Char) → List Char
  | [] => []
  | [c] => c
  | c :: rest => c ++ '/' :: joinComps rest

/-- Go `path.Clean` on a character list: shortest lexically-equivalent path
(collapse `//`, drop `.`, resolve `..`); empty input cleans to `.`. -/
def goCleanList (l : List Char) : List Char :=
  if l = [] then ['.']
  else
    let rooted : Bool := decide (l.head? = some '/')
    let stack := cleanComps rooted [] (splitSlash l)
    let body := joinComps stack.reverse
    let res := if rooted then '/' :: body else body
    if res = [] then ['.'] else res

/-- Length contributed by the directory prefix when cleaning
`pre ++ "/" ++ component`: everything except the final component's length. -/
def cleanBase (pre : List Char) : Nat :=
  let rooted : Bool := decide ((pre ++ ['/']).head? = some '/')
  let stack := cleanComps rooted [] (splitSlash pre)
  (if stack = [] then 0 else (joinComps stack.reverse).length + 1) +
    (if rooted then 1 else 0)

/-- Go `path.Clean` on strings. -/
def goClean (s : String) : String :=
  String.mk (goCleanList s.data)

/-- Go `path.Join` restricted to two elements, as called by `Collect`:
empty elements are skipped, the rest joined with `/`, and the result cleaned
(`Join()` of no non-empty elements is `""`). -/
def goPathJoin (a b : String) : String :=
  if a = "" then (if b = "" then "" else goClean b)
  else if b = "" then goClean a
  else goClean (a ++ "/" ++ b)

/-- Gregorian date (year, month, day) of a day count since 1970-01-01,
via the standard civil-from-days conversion. -/
def civilFromDays (days : Nat) : Nat × Nat × Nat :=
  let z := days + 719468
  let era := z / 146097
  let doe := z % 146097
  let yoe := (doe - doe / 1460 + doe / 36524 - doe / 146096) / 365
  let y := yoe + era * 400
  let doy := doe - (365 * yoe + yoe / 4 - yoe / 100)
  let mp := (5 * doy + 2) / 153
  let d := doy - (153 * mp + 2) / 5 + 1
  let m := if mp < 10 then mp + 3 else mp - 9
  (if m ≤ 2 then y + 1 else y, m, d)

/-- Left-pad the decimal form of `n` with zeros to width 2. -/
def pad2 (n : Nat) : String :=
  if n < 10 then "0" ++ toString n else toString n

/-- Left-pad the decimal form of `n` with zeros to width 4. -/
def pad4 (n : Nat) : String :=
  if n < 10 then "000" ++ toString n
  else if n < 100 then "00" ++ toString n
  else if n < 1000 then "0" ++ toString n
  else toString n

/-- Models Go `t.Format(time.RFC3339)` for an instant `t` given as seconds
since the Unix epoch, rendered in UTC (Go uses the local zone, which only
changes the numeric offset suffix). -/
def rfc3339 (t : Nat) : String :=
  let days := t / 86400
  let secs := t % 86400
  let ymd := civilFromDays days
  pad4 ymd.1 ++ "-" ++ pad2 ymd.2.1 ++ "-" ++ pad2 ymd.2.2 ++ "T" ++
    pad2 (secs / 3600) ++ ":" ++ pad2 (secs % 3600 / 60) ++ ":" ++ pad2 (secs % 60) ++ "Z"

/-- Models `strconv.FormatInt(val, 10)`: decimal representation of an
`int64`, with a leading minus sign when negative. -/
def formatInt (v : Int) : String :=
  toString v

/-- The `Collector` struct.  `Ready`, `ch` and `q` are channels: the run
model below replaces them by an explicit event list, so only the persistent
fields appear.  `startedAt`/`finishedAt` are `0` at the zero value. -/
structure Collector where
  path : String
  startedAt : Nat
  finishedAt : Nat
  counters : List (String × Int)
  deriving Repr, DecidableEq

/-- `NewCollector(path)`: a collector bound to `path` with an empty counter
map and zero-value times; the Go constructor performs no file-system
side effects, and correspondingly this is a pure constructor. -/
def newCollector (path : String) : Collector :=
  { path := path, startedAt := 0, finishedAt := 0, counters := [] }

/-- `Path()`. -/
def pathOf (c : Collector) : String :=
  c.path

/-- `StartedAt()`. -/
def startedAtOf (c : Collector) : Nat :=
  c.startedAt

/-- `FinishedAt()`. -/
def finishedAtOf (c : Collector) : Nat :=
  c.finishedAt

/-- `AddCounter(name)`: register `name` at zero if absent, otherwise leave
the map unchanged. -/
def addCounter (c : Collector) (name : String) : Collector :=
  match findVal c.counters name with
  | some _ => c
  | none => { c with counters := c.counters ++ [(name, 0)] }

/-- `ValueOf(name)`: the counter's current value, or the
`counter %s: doesn't exist` error when the name was never registered
(Go returns `(0, err)`; the non-nil-error case is the `.error` branch). -/
def valueOf (c : Collector) (name : String) : Except String Int :=
  match findVal c.counters name with
  | some v => Except.ok v
  | none => Except.error ("counter " ++ name ++ ": doesn\x27t exist")

/-- The `op` struct: kind (`'i'` increment / `'s'` set), counter name,
operand. -/
structure Op where
  kind : Char
  name : String
  value : Int
  deriving Repr, DecidableEq

/-- One event arriving at the select loop: an update request on `ch`, or the
shutdown signal on `q` sent by `Finish()`. -/
inductive Event where
  | op : Op → Event
  | quit : Event
  deriving Repr, DecidableEq

/-- Mutable state while the loop runs: the counter values and the
newest-first trace of completed `WriteFile` calls `(path, content)`. -/
structure LoopState where
  counters : List (String × Int)
  trace : List (String × String)
  deriving Repr, DecidableEq

/-- How the loop ended: normal return via the quit channel, a panic from a
nil-pointer dereference, or still blocked waiting for events. -/
inductive LoopExit where
  | quit : LoopExit
  | panicked : LoopExit
  | pending : LoopExit
  deriving Repr, DecidableEq

/-- The body of `Collect`'s select loop for one update request `u`, given the
file-name map `fC` (keyed by upper-cased registered names).  Mirrors the
source line by line: a name missing from `fC` is skipped (`continue`); for
kind `'i'`/`'s'` the counter pointer `self.counters[u.name]` is dereferenced,
which for a missing key is Go's `nil` and panics (`none`); the new value is
then written to the counter's file.  A kind other than `'i'`/`'s'` leaves
`val` at its zero value `0` and writes that (unreachable through the public
API, which only builds `'i'` and `'s'` ops). -/
def stepOp (fC : List (String × String)) (s : LoopState) (u : Op) : Option LoopState :=
  match findVal fC u.name with
  | none => some s
  | some fname =>
    if u.kind = 'i' then
      match findVal s.counters u.name with
      | none => none
      | some old =>
        let val := wrap64 (old + u.value)
        some { counters := storeVal s.counters u.name val,
               trace := (fname, formatInt val) :: s.trace }
    else if u.kind = 's' then
      match findVal s.counters u.name with
      | none => none
      | some _ =>
        let val := wrap64 u.value
        some { counters := storeVal s.counters u.name val,
               trace := (fname, formatInt val) :: s.trace }
    else
      some { s with trace := (fname, formatInt 0) :: s.trace }

/-- The select loop over the arriving events (in arrival order): update
requests are applied with `stepOp`; the quit signal returns; an empty tail
leaves the loop blocked (`pending`).  A `none` step is the nil-pointer
panic unwinding out of the loop. -/
def runLoop (fC : List (String × String)) : LoopState → List Event → LoopState × LoopExit
  | s, [] => (s, LoopExit.pending)
  | s, Event.quit :: _ => (s, LoopExit.quit)
  | s, Event.op u :: rest =>
    match stepOp fC s u with
    | none => (s, LoopExit.panicked)
    | some s2 => runLoop fC s2 rest

/-- The `fC` map built at the top of `Collect`: each registered name
contributes its upper-cased form, mapped to that form joined with the
directory path. -/
def buildFC (dir : String) (counters : List (String × Int)) : List (String × String) :=
  counters.map (fun p => (goToUpper p.1, goPathJoin dir (goToUpper p.1)))

/-- How a whole `Collect` call ended: the `MkdirAll` error path, a normal
`nil` return, a panic propagating out (after the `defer` ran), or a loop
still blocked. -/
inductive Outcome where
  | err : String → Outcome
  | ok : Outcome
  | panicked : Outcome
  | pending : Outcome
  deriving Repr, DecidableEq

/-- Result of one modelled `Collect` run: the collector's fields afterwards,
the newest-first trace of file writes, and the outcome. -/
structure RunResult where
  collector : Collector
  trace : List (String × String)
  outcome : Outcome
  deriving Repr, DecidableEq

/-- `Collect()`.  `mkdirErr` is `os.MkdirAll`'s result: on `some e`,
`Collect` returns the error before touching anything.  Otherwise it computes
the `STARTED`/`FINISHED` paths and `fC`, records `tStart` and synchronously
writes it (RFC3339) to `STARTED`, then runs the loop on `events`.  The
deferred function records `tFinish` and writes `FINISHED` whenever the loop
exits — on the quit signal and on a panic alike — but not while the loop is
still blocked. -/
def collect (c : Collector) (mkdirErr : Option String) (tStart tFinish : Nat)
    (events : List Event) : RunResult :=
  match mkdirErr with
  | some e => { collector := c, trace := [], outcome := Outcome.err e }
  | none =>
    let fS := goPathJoin c.path "STARTED"
    let fF := goPathJoin c.path "FINISHED"
    let fC := buildFC c.path c.counters
    let init : LoopState := { counters := c.counters, trace := [(fS, rfc3339 tStart)] }
    match runLoop fC init events with
    | (s, LoopExit.quit) =>
      { collector := { c with startedAt := tStart, finishedAt := tFinish, counters := s.counters },
        trace := (fF, rfc3339 tFinish) :: s.trace,
        outcome := Outcome.ok }
    | (s, LoopExit.panicked) =>
      { collector := { c with startedAt := tStart, finishedAt := tFinish, counters := s.counters },
        trace := (fF, rfc3339 tFinish) :: s.trace,
        outcome := Outcome.panicked }
    | (s, LoopExit.pending) =>
      { collector := { c with startedAt := tStart, counters := s.counters },
        trace := s.trace,
        outcome := Outcome.pending }

/-- Current content of the file at `p`: the newest write to `p` in the
trace, if any. -/
def fileContent (trace : List (String × String)) (p : String) : Option String :=
  findVal trace p

/-- Number of writes to the file at `x` recorded in the trace. -/
def countPath (trace : List (String × String)) (x : String) : Nat :=
  match trace with
  | [] => 0
  | e :: rest => (if e.1 = x then 1 else 0) + countPath rest x

end Statdir

namespace Statdir

example : rfc3339 0 = "1970-01-01T00:00:00Z" := by decide
example : goToUpper "foo" = "FOO" := by decide
example : goPathJoin "tmp" "FOO" = "tmp/FOO" := by decide
example : goPathJoin "/a//b/./c/.." "X" = "/a/b/X" := by decide
example : goClean "" = "." := by decide
example : formatInt (-5) = "-5" := by decide

/-! ## Helper lemmas -/

theorem wrap64_eq_self {x : Int} (h1 : -(2 ^ 63) ≤ x) (h2 : x < 2 ^ 63) :
    wrap64 x = x := by
  have e63 : (2 : Int) ^ 63 = 9223372036854775808 := by norm_num
  have e64 : (2 : Int) ^ 64 = 18446744073709551616 := by norm_num
  unfold wrap64
  rw [Int.emod_eq_of_lt (by omega) (by omega)]
  omega

theorem findVal_storeVal_same {l : List (String × Int)} {k : String} {old : Int}
    (h : findVal l k = some old) (v : Int) :
    findVal (storeVal l k v) k = some v := by
  induction l with
  | nil => simp [findVal] at h
  | cons p rest ih =>
    by_cases hp : p.1 = k
    · simp [findVal, storeVal, hp]
    · simp [findVal, hp] at h
      simp [findVal, storeVal, hp]
      exact ih h

theorem findVal_buildFC {dir : String} {counters : List (String × Int)} {n : String}
    (h : (findVal counters n).isSome) :
    findVal (buildFC dir counters) (goToUpper n) =
      some (goPathJoin dir (goToUpper n)) := by
  induction counters with
  | nil => simp [findVal] at h
  | cons p rest ih =>
    by_cases hu : goToUpper p.1 = goToUpper n
    · simp [buildFC, findVal, hu]
    · have hp : p.1 ≠ n := fun e => hu (by rw [e])
      simp [findVal, hp] at h
      simpa [buildFC, findVal, hu] using ih h

theorem findVal_buildFC_val {dir : String} {counters : List (String × Int)}
    {m f : String} (h : findVal (buildFC dir counters) m = some f) :
    f ∈ counters.map (fun q => goPathJoin dir (goToUpper q.1)) := by
  induction counters with
  | nil => simp [buildFC, findVal] at h
  | cons p rest ih =>
    by_cases hu : goToUpper p.1 = m
    · simp [buildFC, findVal, hu] at h
      rw [List.map_cons]
      exact List.mem_cons.mpr (Or.inl (by rw [← h, ← hu]))
    · simp [buildFC, findVal, hu] at h
      rw [List.map_cons]
      exact List.mem_cons.mpr (Or.inr (ih h))

theorem findVal_append_none {α : Type} {l : List (String × α)} {k : String}
    (h : findVal l k = none) (m : List (String × α)) :
    findVal (l ++ m) k = findVal m k := by
  induction l with
  | nil => rfl
  | cons p rest ih =>
    by_cases hp : p.1 = k
    · simp [findVal, hp] at h
    · simp [findVal, hp] at h ⊢
      exact ih h

theorem stepOp_skip {fC : List (String × String)} {s : LoopState} {u : Op}
    (h : findVal fC u.name = none) : stepOp fC s u = some s := by
  simp [stepOp, h]

theorem stepOp_inc {fC : List (String × String)} {s : LoopState} {name f : String}
    {old : Int} (v : Int) (hf : findVal fC name = some f)
    (hc : findVal s.counters name = some old) :
    stepOp fC s ⟨'i', name, v⟩ =
      some { counters := storeVal s.counters name (wrap64 (old + v)),
             trace := (f, formatInt (wrap64 (old + v))) :: s.trace } := by
  simp [stepOp, hf, hc]

theorem stepOp_set {fC : List (String × String)} {s : LoopState} {name f : String}
    {old : Int} (v : Int) (hf : findVal fC name = some f)
    (hc : findVal s.counters name = some old) :
    stepOp fC s ⟨'s', name, v⟩ =
      some { counters := storeVal s.counters name (wrap64 v),
             trace := (f, formatInt (wrap64 v)) :: s.trace } := by
  simp [stepOp, hf, hc]

theorem stepOp_panic {fC : List (String × String)} {s : LoopState} {k : Char}
    {name f : String} (v : Int) (hf : findVal fC name = some f)
    (hc : findVal s.counters name = none) (hk : k = 'i' ∨ k = 's') :
    stepOp fC s ⟨k, name, v⟩ = none := by
  rcases hk with hk | hk <;> subst hk <;> simp [stepOp, hf, hc]

theorem findVal_buildFC_none {dir m : String} {cs : List (String × Int)}
    (h : ∀ q ∈ cs, goToUpper q.1 ≠ m) :
    findVal (buildFC dir cs) m = none := by
  induction cs with
  | nil => rfl
  | cons p rest ih =>
    have hp : goToUpper p.1 ≠ m := h p (List.mem_cons_self p rest)
    have hr : ∀ q ∈ rest, goToUpper q.1 ≠ m :=
      fun q hq => h q (List.mem_cons_of_mem p hq)
    simp [buildFC, findVal, hp]
    simpa [buildFC] using ih hr

theorem findVal_mem {α : Type} {l : List (String × α)} {k : String} {v : α}
    (h : findVal l k = some v) : (k, v) ∈ l := by
  induction l with
  | nil => simp [findVal] at h
  | cons p rest ih =>
    by_cases hp : p.1 = k
    · simp [findVal, hp] at h
      have : p = (k, v) := Prod.ext hp h
      rw [← this]
      exact List.mem_cons_self p rest
    · simp [findVal, hp] at h
      exact List.mem_cons_of_mem p (ih h)

theorem stepOp_trace_shape {fC : List (String × String)} {s s2 : LoopState} {u : Op}
    (h : stepOp fC s u = some s2) :
    s2.trace = s.trace ∨
      ∃ f cnt, findVal fC u.name = some f ∧ s2.trace = (f, cnt) :: s.trace := by
  unfold stepOp at h
  cases hf : findVal fC u.name with
  | none =>
    rw [hf] at h
    simp at h
    rw [← h]
    exact Or.inl rfl
  | some f =>
    rw [hf] at h
    right
    split_ifs at h with hk1 hk2
    · cases hc : findVal s.counters u.name with
      | none => rw [hc] at h; simp at h
      | some old =>
        rw [hc] at h
        simp at h
        exact ⟨f, _, rfl, by rw [← h]⟩
    · cases hc : findVal s.counters u.name with
      | none => rw [hc] at h; simp at h
      | some old =>
        rw [hc] at h
        simp at h
        exact ⟨f, _, rfl, by rw [← h]⟩
    · simp at h
      exact ⟨f, _, rfl, by rw [← h]⟩

theorem stepOp_countPath {fC : List (String × String)} {s s2 : LoopState} {u : Op}
    {x : String} (hx : ∀ q ∈ fC, q.2 ≠ x) (h : stepOp fC s u = some s2) :
    countPath s2.trace x = countPath s.trace x := by
  rcases stepOp_trace_shape h with h1 | ⟨f, cnt, hf, h2⟩
  · rw [h1]
  · have hne : f ≠ x := hx (u.name, f) (findVal_mem hf)
    rw [h2]
    simp [countPath, hne]

theorem runLoop_countPath {fC : List (String × String)} {x : String}
    (hx : ∀ q ∈ fC, q.2 ≠ x) :
    ∀ (evs : List Event) (s : LoopState),
      countPath (runLoop fC s evs).1.trace x = countPath s.trace x := by
  intro evs
  induction evs with
  | nil => intro s; rfl
  | cons e rest ih =>
    intro s
    cases e with
    | quit => rfl
    | op u =>
      cases h : stepOp fC s u with
      | none => simp [runLoop, h]
      | some s2 =>
        simp only [runLoop, h]
        rw [ih s2, stepOp_countPath hx h]

theorem runLoop_trace_suffix {fC : List (String × String)} :
    ∀ (evs : List Event) (s : LoopState),
      ∃ pre, (runLoop fC s evs).1.trace = pre ++ s.trace := by
  intro evs
  induction evs with
  | nil => intro s; exact ⟨[], rfl⟩
  | cons e rest ih =>
    intro s
    cases e with
    | quit => exact ⟨[], rfl⟩
    | op u =>
      cases h : stepOp fC s u with
      | none => exact ⟨[], by simp [runLoop, h]⟩
      | some s2 =>
        obtain ⟨pre2, hp2⟩ := ih s2
        rcases stepOp_trace_shape h with h1 | ⟨f, cnt, _, h2⟩
        · exact ⟨pre2, by simp only [runLoop, h]; rw [hp2, h1]⟩
        · exact ⟨pre2 ++ [(f, cnt)],
            by simp only [runLoop, h]; rw [hp2, h2, List.append_assoc]; rfl⟩

/-! ### The `STARTED` and `FINISHED` paths never coincide

For any directory path, `path.Join(dir, "STARTED")` and
`path.Join(dir, "FINISHED")` are distinct: cleaning `dir ++ "/" ++ N` for a
plain final component `N` always yields a path whose length is `N`'s length
plus a quantity depending only on `dir`, and the two markers have different
lengths. -/

theorem splitSlash_ne_nil (l : List Char) : splitSlash l ≠ [] := by
  cases l with
  | nil => simp [splitSlash]
  | cons c rest =>
    by_cases hc : c = '/'
    · simp [splitSlash, hc]
    · simp only [splitSlash, if_neg hc]
      cases splitSlash rest <;> simp

theorem splitSlash_append (xs ys : List Char) :
    splitSlash (xs ++ '/' :: ys) = splitSlash xs ++ splitSlash ys := by
  induction xs with
  | nil => simp [splitSlash]
  | cons c rest ih =>
    by_cases hc : c = '/'
    · simp [splitSlash, hc, ih]
    · simp only [List.cons_append, splitSlash, if_neg hc]
      have ih2 : splitSlash (rest.append ('/' :: ys)) = splitSlash rest ++ splitSlash ys := ih
      rw [ih2]
      cases h : splitSlash rest with
      | nil => exact absurd h (splitSlash_ne_nil rest)
      | cons hd tl => simp

theorem splitSlash_no_slash {l : List Char} (h : '/' ∉ l) : splitSlash l = [l] := by
  induction l with
  | nil => rfl
  | cons c rest ih =>
    have hc : c ≠ '/' := fun e => h (e ▸ List.mem_cons_self c rest)
    have hr : '/' ∉ rest := fun e => h (List.mem_cons_of_mem c e)
    simp only [splitSlash, if_neg hc, ih hr]

theorem cleanComps_append_single {c : List Char} (h1 : c ≠ []) (h2 : c ≠ ['.'])
    (h3 : c ≠ ['.', '.']) (rooted : Bool) :
    ∀ (l stack : List (List Char)),
      cleanComps rooted stack (l ++ [c]) = c :: cleanComps rooted stack l := by
  intro l
  induction l with
  | nil =>
    intro stack
    have hor : ¬(c = [] ∨ c = ['.']) := by
      intro h
      rcases h with h | h
      · exact h1 h
      · exact h2 h
    simp only [List.nil_append, cleanComps, if_neg hor, if_neg h3]
  | cons d rest ih =>
    intro stack
    by_cases hd1 : d = [] ∨ d = ['.']
    · simp only [List.cons_append, cleanComps, if_pos hd1]
      exact ih stack
    · by_cases hd2 : d = ['.', '.']
      · simp only [List.cons_append, cleanComps, if_neg hd1, if_pos hd2]
        cases stack with
        | nil =>
          show (if rooted = true then cleanComps rooted [] (rest ++ [c])
              else cleanComps rooted [['.', '.']] (rest ++ [c])) =
            c :: (if rooted = true then cleanComps rooted [] rest
              else cleanComps rooted [['.', '.']] rest)
          by_cases hr : rooted = true
          · rw [if_pos hr, if_pos hr, ih]
          · rw [if_neg hr, if_neg hr, ih]
        | cons top s2 =>
          show (if top = ['.', '.']
                then cleanComps rooted (['.', '.'] :: top :: s2) (rest ++ [c])
                else cleanComps rooted s2 (rest ++ [c])) =
            c :: (if top = ['.', '.']
                then cleanComps rooted (['.', '.'] :: top :: s2) rest
                else cleanComps rooted s2 rest)
          by_cases ht : top = ['.', '.']
          · rw [if_pos ht, if_pos ht, ih]
          · rw [if_neg ht, if_neg ht, ih]
      · simp only [List.cons_append, cleanComps, if_neg hd1, if_neg hd2]
        exact ih _

theorem joinComps_ne_nil_append {l : List (List Char)} (x : List Char)
    (h : l ≠ []) : joinComps (l ++ [x]) = joinComps l ++ '/' :: x := by
  induction l with
  | nil => exact absurd rfl h
  | cons a rest ih =>
    cases rest with
    | nil => rfl
    | cons b rest2 =>
      have : joinComps ((b :: rest2) ++ [x]) = joinComps (b :: rest2) ++ '/' :: x :=
        ih (by simp)
      show a ++ '/' :: joinComps ((b :: rest2) ++ [x]) =
        (a ++ '/' :: joinComps (b :: rest2)) ++ '/' :: x
      rw [this]
      simp

theorem head_append_slash (pre : List Char) (N : List Char) :
    (pre ++ '/' :: N).head? = (pre ++ ['/']).head? := by
  cases pre <;> rfl

theorem joinComps_append_single_length (S : List (List Char)) (N : List Char) :
    (joinComps (S.reverse ++ [N])).length =
      N.length + (if S = [] then 0 else (joinComps S.reverse).length + 1) := by
  by_cases hSe : S = []
  · rw [hSe]
    simp [joinComps]
  · have hrev : S.reverse ≠ [] := by
      intro h
      exact hSe (by simpa using congrArg List.reverse h)
    rw [joinComps_ne_nil_append N hrev, if_neg hSe]
    simp
    omega

theorem goCleanList_last_comp (pre : List Char) (N : List Char) (hN1 : N ≠ [])
    (hN2 : N ≠ ['.']) (hN3 : N ≠ ['.', '.']) (hN4 : '/' ∉ N) :
    (goCleanList (pre ++ '/' :: N)).length = N.length + cleanBase pre := by
  have hLne : ¬(pre ++ '/' :: N = []) := by simp
  have hh : decide ((pre ++ '/' :: N).head? = some '/') =
      decide ((pre ++ ['/']).head? = some '/') :=
    congrArg (fun x => decide (x = some '/')) (head_append_slash pre N)
  have hsplit : splitSlash (pre ++ '/' :: N) = splitSlash pre ++ [N] := by
    rw [splitSlash_append, splitSlash_no_slash hN4]
  have hstack : cleanComps (decide ((pre ++ ['/']).head? = some '/')) []
        (splitSlash pre ++ [N]) =
      N :: cleanComps (decide ((pre ++ ['/']).head? = some '/')) [] (splitSlash pre) :=
    cleanComps_append_single hN1 hN2 hN3 _ _ _
  have hNlen : 0 < N.length := List.length_pos.mpr hN1
  rw [goCleanList, if_neg hLne]
  simp only [hh, hsplit]
  rw [hstack]
  rw [cleanBase]
  simp only [List.reverse_cons]
  cases hr : decide ((pre ++ ['/']).head? = some '/') with
  | true =>
    have hJ := joinComps_append_single_length (cleanComps true [] (splitSlash pre)) N
    simp
    omega
  | false =>
    have hJ := joinComps_append_single_length (cleanComps false [] (splitSlash pre)) N
    have hres : ¬(joinComps ((cleanComps false [] (splitSlash pre)).reverse ++ [N]) = []) := by
      intro h
      rw [h] at hJ
      simp at hJ
      omega
    simp [hres]
    omega

theorem marker_paths_distinct (dir : String) :
    goPathJoin dir "STARTED" ≠ goPathJoin dir "FINISHED" := by
  by_cases hd : dir = ""
  · subst hd
    decide
  · have hS : goPathJoin dir "STARTED" = goClean (dir ++ "/" ++ "STARTED") := by
      rw [goPathJoin, if_neg hd]
      rfl
    have hF : goPathJoin dir "FINISHED" = goClean (dir ++ "/" ++ "FINISHED") := by
      rw [goPathJoin, if_neg hd]
      rfl
    have hdS : (dir ++ "/" ++ "STARTED").data = dir.data ++ '/' :: "STARTED".data := by
      simp [String.data_append]
    have hdF : (dir ++ "/" ++ "FINISHED").data = dir.data ++ '/' :: "FINISHED".data := by
      simp [String.data_append]
    have hlS : (goCleanList (dir.data ++ '/' :: "STARTED".data)).length =
        ("STARTED".data).length + cleanBase dir.data :=
      goCleanList_last_comp dir.data _ (by decide) (by decide) (by decide) (by decide)
    have hlF : (goCleanList (dir.data ++ '/' :: "FINISHED".data)).length =
        ("FINISHED".data).length + cleanBase dir.data :=
      goCleanList_last_comp dir.data _ (by decide) (by decide) (by decide) (by decide)
    intro h
    rw [hS, hF] at h
    have hdata : goCleanList ((dir ++ "/" ++ "STARTED").data) =
        goCleanList ((dir ++ "/" ++ "FINISHED").data) := congrArg String.data h
    rw [hdS, hdF] at hdata
    have := congrArg List.length hdata
    rw [hlS, hlF] at this
    have h7 : ("STARTED".data).length = 7 := by decide
    have h8 : ("FINISHED".data).length = 8 := by decide
    omega

theorem runLoop_inc_ones {fC : List (String × String)} {name f : String}
    (hf : findVal fC name = some f) :
    ∀ (k : Nat) (s : LoopState) (v : Int), findVal s.counters name = some v →
      0 ≤ v → v + k < 2 ^ 63 →
      ∃ s2, runLoop fC s
          (List.replicate k (Event.op ⟨'i', name, 1⟩) ++ [Event.quit]) =
          (s2, LoopExit.quit) ∧
        findVal s2.counters name = some (v + k) ∧
        (0 < k → ∃ r, s2.trace = (f, formatInt (v + k)) :: r) ∧
        (k = 0 → s2 = s) := by
  intro k
  induction k with
  | zero =>
    intro s v hv _ _
    refine ⟨s, rfl, by simpa using hv, fun h => absurd h (by omega), fun _ => rfl⟩
  | succ k ih =>
    intro s v hv hv0 hvk
    have h63 : (2 : Int) ^ 63 = 9223372036854775808 := by norm_num
    have hk1 : ((k + 1 : Nat) : Int) = (k : Int) + 1 := by push_cast; ring
    have hkn : (0 : Int) ≤ (k : Int) := Int.natCast_nonneg k
    have hw : wrap64 (v + 1) = v + 1 := by
      refine wrap64_eq_self (by omega) ?_
      rw [h63]
      rw [hk1] at hvk
      rw [h63] at hvk
      omega
    have hstep := stepOp_inc 1 hf hv
    rw [hw] at hstep
    have hv1 : findVal (storeVal s.counters name (v + 1)) name = some (v + 1) :=
      findVal_storeVal_same hv _
    obtain ⟨s2, hrun, hval, htr, hk0⟩ :=
      ih { counters := storeVal s.counters name (v + 1),
           trace := (f, formatInt (v + 1)) :: s.trace } (v + 1) hv1 (by omega)
        (by rw [hk1] at hvk; omega)
    have hcast : (v + 1) + (k : Int) = v + ((k + 1 : Nat) : Int) := by push_cast; ring
    refine ⟨s2, ?_, ?_, ?_, fun h => absurd h (Nat.succ_ne_zero k)⟩
    · rw [List.replicate_succ, List.cons_append]
      show runLoop fC s (Event.op ⟨'i', name, 1⟩ ::
        (List.replicate k (Event.op ⟨'i', name, 1⟩) ++ [Event.quit])) = (s2, LoopExit.quit)
      simp only [runLoop, hstep]
      exact hrun
    · rw [← hcast]
      exact hval
    · intro _
      rcases Nat.eq_zero_or_pos k with hk | hk
      · subst hk
        refine ⟨s.trace, ?_⟩
        rw [hk0 rfl]
        norm_num
      · obtain ⟨r, hr⟩ := htr hk
        refine ⟨r, ?_⟩
        rw [hr, hcast]

/-! ## Claims -/

/-- C5: `ValueOf` returns the counter's current value with no error for every
registered name — in particular `0` right after registration and before any
update — and for a never-registered name it fails with the
`counter <name>: doesn't exist` error, returning no usable value. -/
theorem C5_valueOf_semantics (c : Collector) (name : String) :
    (∀ v : Int, findVal c.counters name = some v → valueOf c name = Except.ok v) ∧
    (findVal c.counters name = none →
      valueOf (addCounter c name) name = Except.ok 0) ∧
    (findVal c.counters name = none →
      valueOf c name = Except.error ("counter " ++ name ++ ": doesn\x27t exist")) := by
  refine ⟨fun v h => ?_, fun h => ?_, fun h => ?_⟩
  · simp [valueOf, h]
  · have : findVal (c.counters ++ [(name, 0)]) name = some 0 := by
      rw [findVal_append_none h]
      simp [findVal]
    simp [addCounter, h, valueOf, this]
  · simp [valueOf, h]

/-- Witness for C5 at concrete inputs: a counter holding 7 is read back as 7,
a freshly registered `FOO` reads as 0, and unregistered `BAR` yields the
error. -/
theorem C5_valueOf_semantics_witness :
    valueOf { path := "tmp", startedAt := 0, finishedAt := 0,
              counters := [("FOO", 7)] } "FOO" = Except.ok 7 ∧
    valueOf (addCounter (newCollector "tmp") "FOO") "FOO" = Except.ok 0 ∧
    valueOf (newCollector "tmp") "BAR" =
      Except.error ("counter " ++ "BAR" ++ ": doesn\x27t exist") := by
  refine ⟨?_, ?_, ?_⟩
  · exact (C5_valueOf_semantics _ "FOO").1 7 (by decide)
  · exact (C5_valueOf_semantics (newCollector "tmp") "FOO").2.1 (by decide)
  · exact (C5_valueOf_semantics (newCollector "tmp") "BAR").2.2 (by decide)

/-- C6: if directory creation fails, `Collect` returns that error at once:
the loop never runs, nothing is written (empty trace — no `STARTED`,
`FINISHED` or counter file), the collector is unchanged, and on a fresh
collector both timestamps are still the zero value. -/
theorem C6_mkdir_failure_aborts (c : Collector) (p e : String) (tS tF : Nat)
    (evs : List Event) :
    (collect c (some e) tS tF evs).outcome = Outcome.err e ∧
    (collect c (some e) tS tF evs).collector = c ∧
    (collect c (some e) tS tF evs).trace = [] ∧
    startedAtOf (collect (newCollector p) (some e) tS tF evs).collector = 0 ∧
    finishedAtOf (collect (newCollector p) (some e) tS tF evs).collector = 0 :=
  ⟨rfl, rfl, rfl, rfl, rfl⟩

/-- C8: `AddCounter` is idempotent — registering an absent name creates it
at zero, re-registering a present name (whatever its value) changes nothing,
and registering twice equals registering once. -/
theorem C8_addCounter_idempotent (c : Collector) (name : String) :
    (findVal c.counters name = none →
      findVal (addCounter c name).counters name = some 0) ∧
    (∀ v : Int, findVal c.counters name = some v → addCounter c name = c) ∧
    addCounter (addCounter c name) name = addCounter c name := by
  refine ⟨fun h => ?_, fun v h => ?_, ?_⟩
  · rw [addCounter, h]
    show findVal (c.counters ++ [(name, 0)]) name = some 0
    rw [findVal_append_none h]
    simp [findVal]
  · rw [addCounter, h]
  · have hs : ∃ v : Int, findVal (addCounter c name).counters name = some v := by
      cases h : findVal c.counters name with
      | some v =>
        refine ⟨v, ?_⟩
        have he : addCounter c name = c := by rw [addCounter, h]
        rw [he, h]
      | none =>
        refine ⟨0, ?_⟩
        have he : (addCounter c name).counters = c.counters ++ [(name, 0)] := by
          rw [addCounter, h]
        rw [he, findVal_append_none h]
        simp [findVal]
    obtain ⟨v, hv⟩ := hs
    rw [addCounter, hv]

/-- Witness for C8 at concrete inputs: registering `FOO` on a fresh
collector stores 0, and re-registering a counter already at 5 leaves the
collector untouched. -/
theorem C8_addCounter_idempotent_witness :
    findVal (addCounter (newCollector "tmp") "FOO").counters "FOO" = some 0 ∧
    addCounter { path := "tmp", startedAt := 0, finishedAt := 0,
                 counters := [("FOO", 5)] } "FOO" =
      { path := "tmp", startedAt := 0, finishedAt := 0,
        counters := [("FOO", 5)] } := by
  constructor
  · exact (C8_addCounter_idempotent (newCollector "tmp") "FOO").1 (by decide)
  · exact (C8_addCounter_idempotent _ "FOO").2.1 5 (by decide)

/-- C1 (amended): the loop body applies an accepted update and persists it,
for every registered counter whose name equals its upper-cased form:
an increment sets the in-memory value to the previous value plus the operand
(64-bit wrap-around), a set replaces it with the operand (as an `int64`), and
in both cases the counter's file is overwritten with the decimal string of
the resulting value.  (As stated over all registered counters the claim
fails: a registered mixed-case name is looked up in `fC` by its raw request
name and silently dropped — see the counterexample.) -/
theorem C1_accepted_update_applies_and_persists (dir name : String)
    (cs0 : List (String × Int)) (s : LoopState) (old v : Int)
    (hu : goToUpper name = name)
    (h0 : (findVal cs0 name).isSome)
    (hc : findVal s.counters name = some old) :
    (∃ s2, stepOp (buildFC dir cs0) s ⟨'i', name, v⟩ = some s2 ∧
      findVal s2.counters name = some (wrap64 (old + v)) ∧
      fileContent s2.trace (goPathJoin dir name) =
        some (formatInt (wrap64 (old + v)))) ∧
    (∃ s2, stepOp (buildFC dir cs0) s ⟨'s', name, v⟩ = some s2 ∧
      findVal s2.counters name = some (wrap64 v) ∧
      fileContent s2.trace (goPathJoin dir name) =
        some (formatInt (wrap64 v))) := by
  have hf : findVal (buildFC dir cs0) name = some (goPathJoin dir name) := by
    have := @findVal_buildFC dir cs0 name h0
    rwa [hu] at this
  constructor
  · refine ⟨_, stepOp_inc v hf hc, ?_, ?_⟩
    · exact findVal_storeVal_same hc _
    · simp [fileContent, findVal]
  · refine ⟨_, stepOp_set v hf hc, ?_, ?_⟩
    · exact findVal_storeVal_same hc _
    · simp [fileContent, findVal]

/-- Witness for C1 at concrete inputs: counter `FOO` at 0, increment by 10
and set to 10 both succeed and persist `"10"` to `tmp/FOO`. -/
theorem C1_accepted_update_applies_and_persists_witness :
    (∃ s2, stepOp (buildFC "tmp" [("FOO", 0)])
        { counters := [("FOO", 0)], trace := [] } ⟨'i', "FOO", 10⟩ = some s2 ∧
      findVal s2.counters "FOO" = some (wrap64 (0 + 10)) ∧
      fileContent s2.trace (goPathJoin "tmp" "FOO") =
        some (formatInt (wrap64 (0 + 10)))) ∧
    (∃ s2, stepOp (buildFC "tmp" [("FOO", 0)])
        { counters := [("FOO", 0)], trace := [] } ⟨'s', "FOO", 10⟩ = some s2 ∧
      findVal s2.counters "FOO" = some (wrap64 10) ∧
      fileContent s2.trace (goPathJoin "tmp" "FOO") =
        some (formatInt (wrap64 10))) :=
  C1_accepted_update_applies_and_persists "tmp" "FOO" [("FOO", 0)]
    { counters := [("FOO", 0)], trace := [] } 0 10
    (by decide) (by decide) (by decide)

/-- C1 counterexample: with counter registered as `"foo"` (value 0), the
accepted increment request `Inc("foo", 10)` is dropped by the `fC` lookup:
the state is returned unchanged, the value stays 0 instead of becoming 10,
and no file `tmp/FOO` is written — refuting the claim as universally stated. -/
theorem C1_mixed_case_drop_counterexample :
    stepOp (buildFC "tmp" [("foo", 0)])
        { counters := [("foo", 0)], trace := [] } ⟨'i', "foo", 10⟩ =
      some { counters := [("foo", 0)], trace := [] } ∧
    findVal [(("foo" : String), (0 : Int))] "foo" ≠ some 10 ∧
    fileContent ([] : List (String × String)) (goPathJoin "tmp" (goToUpper "foo")) ≠
      some (formatInt 10) := by
  refine ⟨by decide, by decide, by decide⟩

/-- C2 (amended): an update request whose name is not the upper-cased form
of any registered counter name is silently dropped: the loop neither fails
nor changes any counter nor writes any file.  (As stated over every
never-registered name the claim fails: a never-registered name that is the
upper-cased form of a registered one crashes the loop instead — see the
counterexample.) -/
theorem C2_unmatched_name_dropped (dir : String) (cs : List (String × Int))
    (s : LoopState) (u : Op)
    (h : ∀ q ∈ cs, goToUpper q.1 ≠ u.name) :
    stepOp (buildFC dir cs) s u = some s :=
  stepOp_skip (findVal_buildFC_none h)

/-- Witness for C2 at concrete inputs: with only `FOO` registered, an
increment of the unregistered `BAR` leaves the loop state untouched. -/
theorem C2_unmatched_name_dropped_witness :
    stepOp (buildFC "tmp" [("FOO", 0)])
        { counters := [("FOO", 0)], trace := [] } ⟨'i', "BAR", 10⟩ =
      some { counters := [("FOO", 0)], trace := [] } :=
  C2_unmatched_name_dropped "tmp" [("FOO", 0)]
    { counters := [("FOO", 0)], trace := [] } ⟨'i', "BAR", 10⟩ (by decide)

/-- C2 counterexample: `"FOO"` was never registered (only `"foo"` was), yet
the loop does not discard the request silently — the counter-map lookup
yields Go's `nil` pointer and the atomic add panics (`none`), refuting the
claim as universally stated. -/
theorem C2_never_registered_crash_counterexample :
    findVal [(("foo" : String), (0 : Int))] "FOO" = none ∧
    stepOp (buildFC "tmp" [("foo", 0)])
        { counters := [("foo", 0)], trace := [] } ⟨'i', "FOO", 1⟩ = none := by
  refine ⟨by decide, by decide⟩

/-- C3 (amended): every registered counter's on-disk file name is its
upper-cased form joined with the directory path (`fC` maps the upper-cased
name to exactly that joined path), two registered names with the same
upper-cased form alias to one file, and updates persist to that file for
registered names that equal their upper-cased form.  (The claim's
"registered name `foo` persists to file `FOO`" fails: a request naming the
registered `foo` is dropped — see the counterexample.) -/
theorem C3_upper_cased_file_names (dir name a b : String)
    (cs : List (String × Int)) (s : LoopState) (old v : Int)
    (hreg : (findVal cs name).isSome)
    (ha : (findVal cs a).isSome) (hab : goToUpper a = goToUpper b)
    (hu : goToUpper name = name)
    (hc : findVal s.counters name = some old) :
    findVal (buildFC dir cs) (goToUpper name) =
      some (goPathJoin dir (goToUpper name)) ∧
    findVal (buildFC dir cs) (goToUpper b) =
      some (goPathJoin dir (goToUpper a)) ∧
    (∃ s2, stepOp (buildFC dir cs) s ⟨'i', name, v⟩ = some s2 ∧
      fileContent s2.trace (goPathJoin dir (goToUpper name)) =
        some (formatInt (wrap64 (old + v)))) := by
  refine ⟨findVal_buildFC hreg, ?_, ?_⟩
  · rw [← hab]
    exact findVal_buildFC ha
  · have hf : findVal (buildFC dir cs) name = some (goPathJoin dir name) := by
      have := @findVal_buildFC dir cs name hreg
      rwa [hu] at this
    refine ⟨_, stepOp_inc v hf hc, ?_⟩
    rw [hu]
    simp [fileContent, findVal]

/-- Witness for C3 at concrete inputs: `foo` and `FoO` both map to
`tmp/FOO`, and an update to the all-upper-case registered `FOO` persists
there. -/
theorem C3_upper_cased_file_names_witness :
    findVal (buildFC "tmp" [("foo", 0), ("FoO", 0), ("FOO", 0)]) (goToUpper "FOO") =
      some (goPathJoin "tmp" (goToUpper "FOO")) ∧
    findVal (buildFC "tmp" [("foo", 0), ("FoO", 0), ("FOO", 0)]) (goToUpper "FoO") =
      some (goPathJoin "tmp" (goToUpper "foo")) ∧
    (∃ s2, stepOp (buildFC "tmp" [("foo", 0), ("FoO", 0), ("FOO", 0)])
        { counters := [("foo", 0), ("FoO", 0), ("FOO", 0)], trace := [] }
        ⟨'i', "FOO", 3⟩ = some s2 ∧
      fileContent s2.trace (goPathJoin "tmp" (goToUpper "FOO")) =
        some (formatInt (wrap64 (0 + 3)))) :=
  C3_upper_cased_file_names "tmp" "FOO" "foo" "FoO" [("foo", 0), ("FoO", 0), ("FOO", 0)]
    { counters := [("foo", 0), ("FoO", 0), ("FOO", 0)], trace := [] } 0 3
    (by decide) (by decide) (by decide) (by decide) (by decide)

/-- C3 counterexample: with counter registered as `"foo"`, an update naming
the registered `"foo"` does not persist to file `tmp/FOO` — it is dropped
unprocessed (state unchanged, no write), refuting the persistence part of
the claim. -/
theorem C3_mixed_case_no_persist_counterexample :
    stepOp (buildFC "tmp" [("foo", 0)])
        { counters := [("foo", 0)], trace := [] } ⟨'i', "foo", 1⟩ =
      some { counters := [("foo", 0)], trace := [] } ∧
    fileContent ([] : List (String × String)) (goPathJoin "tmp" "FOO") ≠
      some (formatInt 1) := by
  refine ⟨by decide, by decide⟩

/-- C4: when a counter is registered under a name that is not its own
upper-cased form and the upper-cased form itself is not registered, an
update request naming that upper-cased form passes the `fC` file-name lookup
but misses the counter map, and the atomic add/store dereferences a nil
pointer (modelled by the `none` loop step) instead of discarding or applying
the request. -/
theorem C4_upper_cased_request_nil_deref (dir name : String) (k : Char)
    (cs : List (String × Int)) (s : LoopState) (v : Int)
    (_hne : goToUpper name ≠ name)
    (hreg : (findVal cs name).isSome)
    (hupper : findVal s.counters (goToUpper name) = none)
    (hk : k = 'i' ∨ k = 's') :
    stepOp (buildFC dir cs) s ⟨k, goToUpper name, v⟩ = none := by
  have hf : findVal (buildFC dir cs) (goToUpper name) =
      some (goPathJoin dir (goToUpper name)) := findVal_buildFC hreg
  exact stepOp_panic v hf hupper hk

/-- Witness for C4 at concrete inputs: `foo` registered, request `FOO`
crashes the loop for both the increment and the set kind. -/
theorem C4_upper_cased_request_nil_deref_witness :
    stepOp (buildFC "tmp" [("foo", 0)])
        { counters := [("foo", 0)], trace := [] } ⟨'i', goToUpper "foo", 10⟩ = none ∧
    stepOp (buildFC "tmp" [("foo", 0)])
        { counters := [("foo", 0)], trace := [] } ⟨'s', goToUpper "foo", 10⟩ = none :=
  ⟨C4_upper_cased_request_nil_deref "tmp" "foo" 'i' [("foo", 0)]
      { counters := [("foo", 0)], trace := [] } 10
      (by decide) (by decide) (by decide) (Or.inl rfl),
    C4_upper_cased_request_nil_deref "tmp" "foo" 's' [("foo", 0)]
      { counters := [("foo", 0)], trace := [] } 10
      (by decide) (by decide) (by decide) (Or.inr rfl)⟩

/-- C9 (amended): the single-writer loop serializes concurrent increments —
for any arrival order of the N×M unit increments from N producers (all
interleavings of identical requests being the same event list), a counter
starting at 0 ends at N×M in memory and its file holds exactly that decimal
value, provided the counter's name equals its upper-cased form, N×M fits in
`int64`, and the counter's file path is not the `FINISHED` marker path.
(As stated over every registered counter the claim fails for mixed-case
names, whose requests are all dropped — see the counterexample.) -/
theorem C9_serialized_increments_sum (c : Collector) (name : String)
    (n m tS tF : Nat)
    (hu : goToUpper name = name)
    (h0 : findVal c.counters name = some 0)
    (hnm : ((n * m : Nat) : Int) < 2 ^ 63)
    (hpath : goPathJoin c.path name ≠ goPathJoin c.path "FINISHED") :
    (collect c none tS tF
        (List.replicate (n * m) (Event.op ⟨'i', name, 1⟩) ++ [Event.quit])).outcome =
      Outcome.ok ∧
    findVal (collect c none tS tF
        (List.replicate (n * m) (Event.op ⟨'i', name, 1⟩) ++
          [Event.quit])).collector.counters name = some ((n * m : Nat) : Int) ∧
    (0 < n * m →
      fileContent (collect c none tS tF
          (List.replicate (n * m) (Event.op ⟨'i', name, 1⟩) ++
            [Event.quit])).trace (goPathJoin c.path name) =
        some (formatInt ((n * m : Nat) : Int))) := by
  have hreg : (findVal c.counters name).isSome := by rw [h0]; rfl
  have hf : findVal (buildFC c.path c.counters) name =
      some (goPathJoin c.path name) := by
    have := @findVal_buildFC c.path c.counters name hreg
    rwa [hu] at this
  obtain ⟨s2, hrun, hval, htr, _⟩ := runLoop_inc_ones hf (n * m)
    { counters := c.counters,
      trace := [(goPathJoin c.path "STARTED", rfc3339 tS)] } 0 h0 le_rfl
    (by simpa using hnm)
  have hcol : collect c none tS tF
      (List.replicate (n * m) (Event.op ⟨'i', name, 1⟩) ++ [Event.quit]) =
      { collector :=
          { c with startedAt := tS, finishedAt := tF, counters := s2.counters },
        trace := (goPathJoin c.path "FINISHED", rfc3339 tF) :: s2.trace,
        outcome := Outcome.ok } := by
    simp only [collect]
    rw [hrun]
  refine ⟨by rw [hcol], ?_, ?_⟩
  · rw [hcol]
    simpa using hval
  · intro hpos
    obtain ⟨r, hr⟩ := htr hpos
    rw [hcol]
    show findVal ((goPathJoin c.path "FINISHED", rfc3339 tF) :: s2.trace)
      (goPathJoin c.path name) = some (formatInt ((n * m : Nat) : Int))
    have hne : goPathJoin c.path "FINISHED" ≠ goPathJoin c.path name := hpath.symm
    rw [findVal, if_neg hne, hr, findVal, if_pos rfl]
    norm_num

/-- Witness for C9 at concrete inputs: 6 producers × 1 unit increment of
counter `FOO` starting at 0 end with value 6 in memory and file content
`"6"` at `tmp/FOO`. -/
theorem C9_serialized_increments_sum_witness :
    (collect { path := "tmp", startedAt := 0, finishedAt := 0, counters := [("FOO", 0)] } none 0 1
        (List.replicate (6 * 1) (Event.op ⟨'i', "FOO", 1⟩) ++ [Event.quit])).outcome =
      Outcome.ok ∧
    findVal (collect { path := "tmp", startedAt := 0, finishedAt := 0, counters := [("FOO", 0)] } none 0 1
        (List.replicate (6 * 1) (Event.op ⟨'i', "FOO", 1⟩) ++
          [Event.quit])).collector.counters "FOO" = some ((6 * 1 : Nat) : Int) ∧
    (0 < 6 * 1 →
      fileContent (collect { path := "tmp", startedAt := 0, finishedAt := 0, counters := [("FOO", 0)] } none 0 1
          (List.replicate (6 * 1) (Event.op ⟨'i', "FOO", 1⟩) ++
            [Event.quit])).trace (goPathJoin "tmp" "FOO") =
        some (formatInt ((6 * 1 : Nat) : Int))) :=
  C9_serialized_increments_sum
    { path := "tmp", startedAt := 0, finishedAt := 0, counters := [("FOO", 0)] }
    "FOO" 6 1 0 1 (by decide) (by decide) (by decide) (by decide)

/-- C9 counterexample: with the counter registered as `"foo"`, one producer
sending one unit increment (N = M = 1) leaves the in-memory value at 0, not
1×1, and writes no file — every request is dropped by the `fC` lookup —
refuting the claim as universally stated. -/
theorem C9_mixed_case_zero_counterexample :
    findVal (collect { path := "tmp", startedAt := 0, finishedAt := 0, counters := [("foo", 0)] } none 0 1
        (List.replicate (1 * 1) (Event.op ⟨'i', "foo", 1⟩) ++
          [Event.quit])).collector.counters "foo" ≠ some ((1 * 1 : Nat) : Int) ∧
    fileContent (collect { path := "tmp", startedAt := 0, finishedAt := 0, counters := [("foo", 0)] } none 0 1
        (List.replicate (1 * 1) (Event.op ⟨'i', "foo", 1⟩) ++
          [Event.quit])).trace (goPathJoin "tmp" (goToUpper "foo")) ≠
      some (formatInt ((1 * 1 : Nat) : Int)) := by
  refine ⟨by decide, by decide⟩

/-- C7 (amended): in one `Collect` run whose directory creation succeeds and
none of whose registered counters' file paths collide with the marker paths,
the `STARTED` marker is written exactly once — synchronously, before any
update-triggered write — containing the recorded start time in RFC3339 form;
the `FINISHED` marker is written at most once, namely exactly at loop exit
(via the shutdown signal or the panic unwind alike) with the recorded finish
time, and not at all while the loop is still running.  (As stated for every
run the claim fails: a counter registered as `STARTED` shares the marker's
path and its updates rewrite that file — see the counterexample.) -/
theorem C7_marker_writes_once (c : Collector) (tS tF : Nat) (evs : List Event)
    (hcp : ∀ q ∈ c.counters,
      goPathJoin c.path (goToUpper q.1) ≠ goPathJoin c.path "STARTED" ∧
      goPathJoin c.path (goToUpper q.1) ≠ goPathJoin c.path "FINISHED") :
    countPath (collect c none tS tF evs).trace (goPathJoin c.path "STARTED") = 1 ∧
    countPath (collect c none tS tF evs).trace (goPathJoin c.path "FINISHED") ≤ 1 ∧
    (∃ pre, (collect c none tS tF evs).trace =
      pre ++ [(goPathJoin c.path "STARTED", rfc3339 tS)]) ∧
    ((collect c none tS tF evs).outcome = Outcome.ok ∨
        (collect c none tS tF evs).outcome = Outcome.panicked →
      (collect c none tS tF evs).trace.head? =
        some (goPathJoin c.path "FINISHED", rfc3339 tF)) ∧
    ((collect c none tS tF evs).outcome = Outcome.pending →
      countPath (collect c none tS tF evs).trace (goPathJoin c.path "FINISHED") = 0) := by
  have hSF : goPathJoin c.path "STARTED" ≠ goPathJoin c.path "FINISHED" :=
    marker_paths_distinct c.path
  have hxS : ∀ q ∈ buildFC c.path c.counters, q.2 ≠ goPathJoin c.path "STARTED" := by
    intro q hq
    obtain ⟨p, hp, hpq⟩ := List.mem_map.mp hq
    rw [← hpq]
    exact (hcp p hp).1
  have hxF : ∀ q ∈ buildFC c.path c.counters, q.2 ≠ goPathJoin c.path "FINISHED" := by
    intro q hq
    obtain ⟨p, hp, hpq⟩ := List.mem_map.mp hq
    rw [← hpq]
    exact (hcp p hp).2
  have hinit : countPath [(goPathJoin c.path "STARTED", rfc3339 tS)]
      (goPathJoin c.path "STARTED") = 1 := by
    simp [countPath]
  have hinitF : countPath [(goPathJoin c.path "STARTED", rfc3339 tS)]
      (goPathJoin c.path "FINISHED") = 0 := by
    simp [countPath, hSF]
  obtain ⟨pre0, hpre⟩ := runLoop_trace_suffix evs
    { counters := c.counters, trace := [(goPathJoin c.path "STARTED", rfc3339 tS)] }
  have hcS := runLoop_countPath hxS evs
    { counters := c.counters, trace := [(goPathJoin c.path "STARTED", rfc3339 tS)] }
  have hcF := runLoop_countPath hxF evs
    { counters := c.counters, trace := [(goPathJoin c.path "STARTED", rfc3339 tS)] }
  rw [hinit] at hcS
  rw [hinitF] at hcF
  rcases hrun : runLoop (buildFC c.path c.counters)
      { counters := c.counters, trace := [(goPathJoin c.path "STARTED", rfc3339 tS)] }
      evs with ⟨s, ex⟩
  rw [hrun] at hcS hcF hpre
  cases ex with
  | quit =>
    have hcol : collect c none tS tF evs =
        { collector :=
            { c with startedAt := tS, finishedAt := tF, counters := s.counters },
          trace := (goPathJoin c.path "FINISHED", rfc3339 tF) :: s.trace,
          outcome := Outcome.ok } := by
      simp only [collect]
      rw [hrun]
    rw [hcol]
    refine ⟨?_, ?_, ?_, fun _ => rfl, ?_⟩
    · show (if goPathJoin c.path "FINISHED" = goPathJoin c.path "STARTED"
        then 1 else 0) + countPath s.trace (goPathJoin c.path "STARTED") = 1
      rw [if_neg (Ne.symm hSF), hcS]
    · show (if goPathJoin c.path "FINISHED" = goPathJoin c.path "FINISHED"
        then 1 else 0) + countPath s.trace (goPathJoin c.path "FINISHED") ≤ 1
      rw [if_pos rfl, hcF]
    · exact ⟨(goPathJoin c.path "FINISHED", rfc3339 tF) :: pre0, by rw [hpre]; rfl⟩
    · intro h
      simp at h
  | panicked =>
    have hcol : collect c none tS tF evs =
        { collector :=
            { c with startedAt := tS, finishedAt := tF, counters := s.counters },
          trace := (goPathJoin c.path "FINISHED", rfc3339 tF) :: s.trace,
          outcome := Outcome.panicked } := by
      simp only [collect]
      rw [hrun]
    rw [hcol]
    refine ⟨?_, ?_, ?_, fun _ => rfl, ?_⟩
    · show (if goPathJoin c.path "FINISHED" = goPathJoin c.path "STARTED"
        then 1 else 0) + countPath s.trace (goPathJoin c.path "STARTED") = 1
      rw [if_neg (Ne.symm hSF), hcS]
    · show (if goPathJoin c.path "FINISHED" = goPathJoin c.path "FINISHED"
        then 1 else 0) + countPath s.trace (goPathJoin c.path "FINISHED") ≤ 1
      rw [if_pos rfl, hcF]
    · exact ⟨(goPathJoin c.path "FINISHED", rfc3339 tF) :: pre0, by rw [hpre]; rfl⟩
    · intro h
      simp at h
  | pending =>
    have hcol : collect c none tS tF evs =
        { collector := { c with startedAt := tS, counters := s.counters },
          trace := s.trace,
          outcome := Outcome.pending } := by
      simp only [collect]
      rw [hrun]
    rw [hcol]
    exact ⟨hcS, by rw [hcF]; omega, ⟨pre0, hpre⟩, fun h => by simp at h,
      fun _ => hcF⟩

/-- Witness for C7 at concrete inputs: one counter `FOO`, one processed
increment, a quit — the markers at `tmp/STARTED` and `tmp/FINISHED` are each
written exactly once, STARTED first and FINISHED last. -/
theorem C7_marker_writes_once_witness :
    countPath (collect { path := "tmp", startedAt := 0, finishedAt := 0, counters := [("FOO", 0)] } none 0 1
      [Event.op ⟨'i', "FOO", 5⟩, Event.quit]).trace (goPathJoin "tmp" "STARTED") = 1 ∧
    countPath (collect { path := "tmp", startedAt := 0, finishedAt := 0, counters := [("FOO", 0)] } none 0 1
      [Event.op ⟨'i', "FOO", 5⟩, Event.quit]).trace (goPathJoin "tmp" "FINISHED") ≤ 1 ∧
    (∃ pre, (collect { path := "tmp", startedAt := 0, finishedAt := 0, counters := [("FOO", 0)] } none 0 1
      [Event.op ⟨'i', "FOO", 5⟩, Event.quit]).trace =
        pre ++ [(goPathJoin "tmp" "STARTED", rfc3339 0)]) ∧
    ((collect { path := "tmp", startedAt := 0, finishedAt := 0, counters := [("FOO", 0)] } none 0 1
        [Event.op ⟨'i', "FOO", 5⟩, Event.quit]).outcome = Outcome.ok ∨
      (collect { path := "tmp", startedAt := 0, finishedAt := 0, counters := [("FOO", 0)] } none 0 1
        [Event.op ⟨'i', "FOO", 5⟩, Event.quit]).outcome = Outcome.panicked →
      (collect { path := "tmp", startedAt := 0, finishedAt := 0, counters := [("FOO", 0)] } none 0 1
        [Event.op ⟨'i', "FOO", 5⟩, Event.quit]).trace.head? =
          some (goPathJoin "tmp" "FINISHED", rfc3339 1)) ∧
    ((collect { path := "tmp", startedAt := 0, finishedAt := 0, counters := [("FOO", 0)] } none 0 1
        [Event.op ⟨'i', "FOO", 5⟩, Event.quit]).outcome = Outcome.pending →
      countPath (collect { path := "tmp", startedAt := 0, finishedAt := 0, counters := [("FOO", 0)] } none 0 1
        [Event.op ⟨'i', "FOO", 5⟩, Event.quit]).trace (goPathJoin "tmp" "FINISHED") = 0) :=
  C7_marker_writes_once
    { path := "tmp", startedAt := 0, finishedAt := 0, counters := [("FOO", 0)] }
    0 1 [Event.op ⟨'i', "FOO", 5⟩, Event.quit] (by decide)

/-- C7 counterexample: a counter registered as `STARTED` shares its file
path with the `STARTED` marker; after one processed increment the file at
`tmp/STARTED` has been written twice in a single run — refuting the
at-most-once claim as stated for every run. -/
theorem C7_started_counter_collision_counterexample :
    countPath (collect { path := "tmp", startedAt := 0, finishedAt := 0, counters := [("STARTED", 0)] } none 0 1
      [Event.op ⟨'i', "STARTED", 5⟩, Event.quit]).trace
      (goPathJoin "tmp" "STARTED") = 2 := by
  decide

/-- C10: `NewCollector(P)` is a pure constructor (no file-system effects are
modelled because the source performs none): `Path()` returns exactly `P`,
`StartedAt()` and `FinishedAt()` return the zero-value time, no counters are
registered, and the three accessors are pure reads of the stored fields. -/
theorem C10_constructor_and_accessors (p : String) (c : Collector) :
    pathOf (newCollector p) = p ∧
    startedAtOf (newCollector p) = 0 ∧
    finishedAtOf (newCollector p) = 0 ∧
    (newCollector p).counters = [] ∧
    pathOf c = c.path ∧
    startedAtOf c = c.startedAt ∧
    finishedAtOf c = c.finishedAt :=
  ⟨rfl, rfl, rfl, rfl, rfl, rfl, rfl⟩

end Statdir
